import Mathlib

/-!
Verification development for the rtlcss core (`lib/rtlcss.js`): the directive
state machine and transformation-dispatch pipeline.  The definitions below are
a shallow embedding of the source.  The collaborating modules `state.js`,
`util.js` and `config.js` are not part of the core source; where their
behaviour matters it is modelled from the specification, and each such
definition is marked `Modelled from the spec:` in its doc comment.

Plugin callbacks (`begin`, `end`, value-directive actions, processor actions)
are opaque data supplied by the configuration; they are embedded as plain Lean
functions.  A callback receiving a postcss node is modelled as a function of
the information the core actually threads to it that can influence the core's
control flow, namely the node's type (for control directives) or the
declaration's fields (for value directives and processors).

Run-time faults (JavaScript `TypeError`s from calling an absent handler or
dereferencing a null directive) are modelled with `Except String`.
Observable behaviour (warnings, hook invocations, callback invocations) is
recorded in an event trace.
-/

namespace Rtlcss

/-- The node types distinguished by the dispatcher (postcss node types). -/
inductive NodeType
  | root
  | rule
  | atrule
  | decl
  | comment
  deriving DecidableEq, Repr

/-- The slice of a postcss node that the node gate reads and writes: its type
and its `processed` mark (`node[processed]` in the source). -/
structure GNode where
  type : NodeType
  processed : Bool
  deriving DecidableEq, Repr

/-- Observable events of a run: warnings attached to nodes, hook invocations,
and plugin-callback invocations (with their returned signal). -/
inductive REvent
  | preHook
  | postHook
  | warnBlacklisted (plugin : String) (dname : String)
  | warnUnsupported (dname : String)
  | warnUnclosed (dname : String)
  | warnSkipped (ruleId : Nat)
  | beginCall (dname : String) (ret : Bool)
  | endCall (dname : String) (ret : Bool)
  | vdirAction (plugin : String) (dname : String) (ok : Bool)
  | procAction (plugin : String) (idx : Nat)
  deriving DecidableEq, Repr

/-- A control directive contributed by a plugin (`plugin.directives.control[name]`):
the set of node types it expects, whether it expects `self` (the comment node),
its `begin` callback and its optional `end` callback. -/
structure ControlDirective where
  expect : NodeType → Bool
  expectSelf : Bool
  begin : NodeType → Bool
  endF : Option (NodeType → Bool)

/-- Directive-invocation metadata (`current.metadata` in the source): the
directive name, whether the occurrence carries a begin marker, whether it
carries an end marker, and whether it was blacklisted. -/
structure Meta where
  name : String
  begin : Bool
  endM : Bool
  blacklist : Bool
  deriving Repr

/-- An entry of the directive stack: its metadata and the resolved control
directive (`null` while unresolved or blacklisted). -/
structure StackEntry where
  metadata : Meta
  directive : Option ControlDirective

/-- A value directive contributed by a plugin (`plugin.directives.value`):
its name and its action, which signals success by returning `true`. -/
structure ValueDirective where
  name : String
  action : String → Bool

/-- A property processor contributed by a plugin: a pattern over property
names and a flip action producing a new property/value pair. -/
structure Processor where
  expr : String → Bool
  action : String → String → String × String

/-- The named directive tables of a plugin (`plugin.directives`). -/
structure Directives where
  control : String → Option ControlDirective
  value : List ValueDirective

/-- A registered plugin: name, directive tables, and ordered processors. -/
structure Plugin where
  name : String
  directives : Directives
  processors : List Processor

/-- The configuration slice the core consults.  `blacklist` is the
plugin-name → directive-name table; `processUrls === true` and
`processUrls.atrule === true` are split into two booleans. -/
structure Config where
  plugins : List Plugin
  blacklist : String → String → Bool
  aliases : String → Option String
  clean : Bool
  autoRename : Bool
  autoRenameStrict : Bool
  processEnv : Bool
  processUrlsAll : Bool
  processUrlsAtrule : Bool

/-- Modelled from the spec: the String Mirror Utility primitive
(`util.swap`) — token-based substitution swapping every occurrence of one
token with another, in both directions. -/
def swapTokens (a b : List Char) : Nat → List Char → List Char
  | 0, cs => cs
  | _, [] => []
  | fuel + 1, c :: cs =>
    if a.isPrefixOf (c :: cs) then b ++ swapTokens a b fuel ((c :: cs).drop a.length)
    else if b.isPrefixOf (c :: cs) then a ++ swapTokens a b fuel ((c :: cs).drop b.length)
    else c :: swapTokens a b fuel cs

/-- Modelled from the spec: `util.applyStringMap` — the String Mirror Utility
used for selector, URL and at-rule parameter mirroring.  The default string
map swaps the tokens `left` and `right`. -/
def applyStringMap (s : String) : String :=
  String.mk (swapTokens "left".toList "right".toList s.length s.toList)

/-- Modelled from the spec: the pre-swap of the two horizontal-inset
environment-variable tokens performed when `processEnv` is enabled. -/
def envSwap (s : String) : String :=
  String.mk (swapTokens "safe-area-inset-left".toList "safe-area-inset-right".toList s.length s.toList)

/-- The structured token of a value directive named `name`, as matched by
`util.regexDirective(name)`. -/
def rtlToken (name : String) : String := "/*rtl:" ++ name ++ "*/"

/-- Containment of a token anywhere in a character list. -/
def containsTok (tok : List Char) : List Char → Bool
  | [] => tok.isPrefixOf []
  | c :: cs => tok.isPrefixOf (c :: cs) || containsTok tok cs

/-- Modelled from the spec: the test of `util.regexDirective(name)` against a
text — the text contains the directive token. -/
def directiveMatch (name : String) (text : String) : Bool :=
  containsTok (rtlToken name).toList text.toList

/-- Removal of every occurrence of a token from a character list. -/
def removeToken (tok : List Char) : Nat → List Char → List Char
  | 0, cs => cs
  | _, [] => []
  | fuel + 1, c :: cs =>
    if tok.isPrefixOf (c :: cs) then removeToken tok fuel ((c :: cs).drop tok.length)
    else c :: removeToken tok fuel cs

/-- Modelled from the spec: `util.trimDirective` — strips the directive token
from a raw field when output-cleaning is enabled. -/
def trimDirective (name : String) (s : String) : String :=
  String.mk (removeToken (rtlToken name).toList s.length s.toList)

/-- The comment-set-aside state returned by `util.saveComments`. -/
structure SavedComments where
  value : String
  comments : List String
  deriving DecidableEq, Repr

/-- Placeholder character standing for a set-aside comment. -/
def MARK : Char := Char.ofNat 0xF8C9

/-- Grabs the characters of a comment up to and including the closing
delimiter, returning the comment tail and the remaining input. -/
def grabComment : Nat → List Char → List Char × List Char
  | 0, cs => (cs, [])
  | _, [] => ([], [])
  | fuel + 1, c :: cs =>
    if c = '*' ∧ cs.head? = some '/' then (['*', '/'], cs.drop 1)
    else
      let (com, rest) := grabComment fuel cs
      (c :: com, rest)

/-- Replaces each embedded comment by the placeholder, collecting the
comments in order. -/
def stripComments : Nat → List Char → List Char × List String
  | 0, cs => (cs, [])
  | _, [] => ([], [])
  | fuel + 1, c :: cs =>
    if c = '/' ∧ cs.head? = some '*' then
      let (com, rest) := grabComment fuel (cs.drop 1)
      let (v, coms) := stripComments fuel rest
      (MARK :: v, String.mk ('/' :: '*' :: com) :: coms)
    else
      let (v, coms) := stripComments fuel cs
      (c :: v, coms)

/-- Modelled from the spec: `util.saveComments` — temporarily removes the
embedded comments from a value so that they survive the flip byte-for-byte. -/
def saveComments (s : String) : SavedComments :=
  let (v, coms) := stripComments s.length s.toList
  ⟨String.mk v, coms⟩

/-- Reinserts the set-aside comments at the placeholder positions. -/
def restoreChars : Nat → List Char → List String → List Char
  | 0, cs, _ => cs
  | _, [], _ => []
  | fuel + 1, c :: cs, coms =>
    if c = MARK then
      match coms with
      | com :: rest => com.toList ++ restoreChars fuel cs rest
      | [] => c :: restoreChars fuel cs []
    else c :: restoreChars fuel cs coms

/-- Modelled from the spec: `util.restoreComments` — reinserts the set-aside
comments into the (possibly rewritten) value. -/
def restoreComments (st : SavedComments) : String :=
  String.mk (restoreChars st.value.length st.value.toList st.comments)

/-- Modelled from the spec: the directive stack (`state.js`) is a nested,
order-preserving collection, walked outermost first.  It is embedded as a
list whose head is the outermost entry; pushing appends at the tail. -/
def gateWalk (nt : NodeType) : List StackEntry → Bool → Except String (Bool × List StackEntry × List REvent)
  | [], mark => .ok (mark, [], [])
  | cur :: rest, mark =>
    if cur.metadata.blacklist then
      match gateWalk nt rest mark with
      | .error e => .error e
      | .ok (m, s, ev) => .ok (m, cur :: s, ev)
    else
      match cur.directive with
      | none => .error "TypeError: cannot read expect of null"
      | some d =>
        if d.expect nt then
          let b := d.begin nt
          let mark1 := if b then false else mark
          if cur.metadata.endM then
            match d.endF with
            | none => .error "TypeError: end is not a function"
            | some f =>
              let r := f nt
              match gateWalk nt rest mark1 with
              | .error e => .error e
              | .ok (m, s, ev) =>
                .ok (m, (if r then s else cur :: s),
                     .beginCall cur.metadata.name b :: .endCall cur.metadata.name r :: ev)
          else
            match gateWalk nt rest mark1 with
            | .error e => .error e
            | .ok (m, s, ev) => .ok (m, cur :: s, .beginCall cur.metadata.name b :: ev)
        else
          match gateWalk nt rest mark with
          | .error e => .error e
          | .ok (m, s, ev) => .ok (m, cur :: s, ev)

/-- The node gate (`shouldProcess` in the source).  If the node is already
marked processed it returns ineligible at once; otherwise it marks the node
optimistically, walks the stack, and returns the final mark together with the
updated node, the updated stack, and the callback events of the walk. -/
def shouldProcess (stack : List StackEntry) (node : GNode) :
    Except String (Bool × GNode × List StackEntry × List REvent) :=
  if node.processed then .ok (false, node, stack, [])
  else
    match gateWalk node.type stack true with
    | .error e => .error e
    | .ok (m, s, ev) => .ok (m, { node with processed := m }, s, ev)

/-- The mutable fields of a declaration node that the pipeline reads and
writes: `prop`, `value`, `raws.between`, `raws.value.raw` (when present),
`important` and `raws.important`. -/
structure DeclNode where
  prop : String
  value : String
  rawsBetween : String
  rawsValueRaw : Option String
  important : Bool
  rawsImportant : Option String
  deriving DecidableEq, Repr

/-- The text a value directive is tested against: the pre-value spacing raw,
then the preserved raw value if present (else the parsed value), then the
importance raw when the declaration is important and has one. -/
def testedText (node : DeclNode) : String :=
  node.rawsBetween ++
    (match node.rawsValueRaw with
     | some raw => raw
     | none => node.value) ++
    (match node.important, node.rawsImportant with
     | true, some imp => imp
     | _, _ => "")

/-- The output-cleaning step after a successful value-directive action:
strips the directive token from the `between` raw, from the importance raw
when present, and from the raw value (mirrored into `value`) or from the
parsed value. -/
def cleanNode (dname : String) (node : DeclNode) : DeclNode :=
  let between := trimDirective dname node.rawsBetween
  let imp :=
    match node.important, node.rawsImportant with
    | true, some i => some (trimDirective dname i)
    | _, other => other
  match node.rawsValueRaw with
  | some raw =>
    let t := trimDirective dname raw
    { node with rawsBetween := between, rawsImportant := imp, rawsValueRaw := some t, value := t }
  | none =>
    { node with rawsBetween := between, rawsImportant := imp, value := trimDirective dname node.value }

/-- Stage A of the declaration pipeline for one plugin: test each value
directive in order against the tested text; on a match invoke its action; on
success optionally clean and terminate (third component `true`). -/
def valueStage (cfg : Config) (pname : String) : List ValueDirective → DeclNode →
    DeclNode × List REvent × Bool
  | [], node => (node, [], false)
  | d :: rest, node =>
    if directiveMatch d.name (testedText node) then
      let ok := d.action (testedText node)
      if ok then
        let node' := if cfg.clean then cleanNode d.name node else node
        (node', [.vdirAction pname d.name true], true)
      else
        let (n, ev, t) := valueStage cfg pname rest node
        (n, .vdirAction pname d.name false :: ev, t)
    else
      let (n, ev, t) := valueStage cfg pname rest node
      (n, ev, t)

/-- Property-name resolution through the alias table: `aliases[prop] || prop`. -/
def effProp (cfg : Config) (p : String) : String := (cfg.aliases p).getD p

/-- The raw working value a processor receives: the preserved raw value if
present, else the parsed value. -/
def rawOf (node : DeclNode) : String :=
  match node.rawsValueRaw with
  | some raw => raw
  | none => node.value

/-- The comment-set-aside state of the working value. -/
def savedOf (node : DeclNode) : SavedComments := saveComments (rawOf node)

/-- The value actually passed to the processor action: comments set aside,
and the environment-variable tokens pre-swapped when `processEnv` is on. -/
def workingValue (cfg : Config) (node : DeclNode) : String :=
  if cfg.processEnv then envSwap (savedOf node).value else (savedOf node).value

/-- The property/value pair returned by a processor's flip action. -/
def flipPair (cfg : Config) (node : DeclNode) (p : Processor) : String × String :=
  p.action node.prop (workingValue cfg node)

/-- The processor's result value with the set-aside comments reinserted. -/
def restoredOf (cfg : Config) (node : DeclNode) (p : Processor) : String :=
  restoreComments ⟨(flipPair cfg node p).2, (savedOf node).comments⟩

/-- Stage B of the declaration pipeline for one plugin: scan the processors
in order; on the first pattern match run the flip action, restore comments,
and write back both fields (counting one flip) iff the property changed with
no alias in play or the restored value changed; then stop scanning this
plugin's processors.  Returns the updated node, the events, and the flip
increment. -/
def procStage (cfg : Config) (pname : String) : List Processor → Nat → DeclNode →
    DeclNode × List REvent × Nat
  | [], _, node => (node, [], 0)
  | p :: rest, idx, node =>
    if p.expr (effProp cfg node.prop) then
      let pair := flipPair cfg node p
      let restored := restoredOf cfg node p
      if ((cfg.aliases node.prop).isNone && pair.1 != node.prop) || restored != rawOf node then
        ({ node with prop := pair.1, value := restored }, [.procAction pname idx], 1)
      else
        (node, [.procAction pname idx], 0)
    else
      procStage cfg pname rest (idx + 1) node

/-- The per-plugin loop of the `Declaration` handler: for each plugin in
registration order, run Stage A; a value-directive success increments the
flip counter and terminates the whole pipeline (fourth component `true`);
otherwise run Stage B and proceed to the next plugin. -/
def declPlugins (cfg : Config) : List Plugin → DeclNode →
    DeclNode × List REvent × Nat × Bool
  | [], node => (node, [], 0, false)
  | pl :: rest, node =>
    let (n1, ev1, term) := valueStage cfg pl.name pl.directives.value node
    if term then (n1, ev1, 1, true)
    else
      let (n2, ev2, inc) := procStage cfg pl.name pl.processors 0 n1
      let (n3, ev3, incs, t) := declPlugins cfg rest n2
      (n3, ev1 ++ ev2 ++ ev3, inc + incs, t)

/-- One structured directive form inside a comment, as produced by the
directive syntax: a name, a begin marker and an end marker. -/
structure Form where
  name : String
  begin : Bool
  endM : Bool
  deriving Repr

/-- The resolution loop of the `Comment` handler (source lines 80–97): for
each plugin in registration order, first consult that plugin's blacklist
table — on a hit mark blacklisted, warn when the form is a begin-occurrence
without an end marker, and stop; otherwise take the plugin's control
directive for the name, stopping on the first match. -/
def resolveLoop (cfg : Config) (m : Meta) : List Plugin → Meta × Option ControlDirective × List REvent
  | [] => (m, none, [])
  | pl :: rest =>
    if cfg.blacklist pl.name m.name then
      let m' := { m with blacklist := true }
      if m.endM then (m', none, [])
      else if m.begin then (m', none, [.warnBlacklisted pl.name m.name])
      else (m', none, [])
    else
      match pl.directives.control m.name with
      | some d => (m, some d, [])
      | none => resolveLoop cfg m rest

/-- Classification of a directive name by the plugin registry: `some true`
when the first deciding plugin blacklists it, `some false` when the first
deciding plugin defines it, `none` when no plugin decides it. -/
def nameDecision (cfg : Config) (n : String) : List Plugin → Option Bool
  | [] => none
  | pl :: rest =>
    if cfg.blacklist pl.name n then some true
    else if (pl.directives.control n).isSome then some false
    else nameDecision cfg n rest

/-- Index of the innermost open stack entry with the given name (the stack
list is outermost first, so the innermost match is the last one). -/
def findLastIdx (n : String) : List StackEntry → Option Nat
  | [] => none
  | e :: rest =>
    match findLastIdx n rest with
    | some i => some (i + 1)
    | none => if e.metadata.name = n then some 0 else none

/-- A placeholder entry (never observed through a valid index). -/
def defaultEntry : StackEntry := ⟨⟨"", false, false, false⟩, none⟩

/-- The run-scoped state threaded through a run: the directive stack, the
per-rule flip counter, the pending-rename table (key → rule identity, in
insertion order), the selector store of rule nodes, the parameter store of
at-rule nodes, and the event trace. -/
structure RunState where
  stack : List StackEntry
  flipped : Nat
  toBeRenamed : List (String × Nat)
  rules : List (Nat × String)
  atParams : List (Nat × String)
  trace : List REvent

/-- Store update: replace the binding of a key, else append it (JavaScript
object semantics: a replaced key keeps its position). -/
def setAssoc (l : List (Nat × String)) (k : Nat) (v : String) : List (Nat × String) :=
  match l with
  | [] => [(k, v)]
  | (k', v') :: rest => if k' = k then (k, v) :: rest else (k', v') :: setAssoc rest k v

/-- Lookup in the rule-selector store (a rule's current selector). -/
def getAssoc (l : List (Nat × String)) (k : Nat) : String :=
  match l with
  | [] => ""
  | (k', v') :: rest => if k' = k then v' else getAssoc rest k

/-- Pending-rename table update (JavaScript object key semantics). -/
def setRename (l : List (String × Nat)) (k : String) (v : Nat) : List (String × Nat) :=
  match l with
  | [] => [(k, v)]
  | (k', v') :: rest => if k' = k then (k, v) :: rest else (k', v') :: setRename rest k v

/-- Pending-rename table lookup. -/
def lookupRename (l : List (String × Nat)) (k : String) : Option Nat :=
  match l with
  | [] => none
  | (k', v') :: rest => if k' = k then some v' else lookupRename rest k

/-- Form lookup and resolution of the `Comment` handler callback: an
end-only form reuses the innermost open entry of the same name (updating its
begin/end markers), any other form creates a fresh invocation with a null
directive; an unresolved invocation is then resolved against the registry.
Returns the reuse index, the resulting metadata, the resolved directive and
the resolution warnings. -/
def resolveForm (cfg : Config) (f : Form) (stack : List StackEntry) :
    Option Nat × Meta × Option ControlDirective × List REvent :=
  let reuse : Option Nat := if !f.begin && f.endM then findLastIdx f.name stack else none
  let meta0 : Meta :=
    match reuse with
    | some i =>
      let e := (stack.get? i).getD defaultEntry
      { e.metadata with begin := f.begin, endM := f.endM }
    | none => ⟨f.name, f.begin, f.endM, false⟩
  let dir0 : Option ControlDirective :=
    match reuse with
    | some i => ((stack.get? i).getD defaultEntry).directive
    | none => none
  match dir0 with
  | some d => (reuse, meta0, some d, [])
  | none =>
    let r := resolveLoop cfg meta0 cfg.plugins
    (reuse, r.1, r.2.1, r.2.2)

/-- The dispatch step of the `Comment` handler callback (source lines
100–119), applied after resolution and the store-back of a reused entry:
end-only forms run `end` and pop on success, stopping the scan; self-closing
directives run `begin` (and `end` when the form carries an end marker),
consuming the form on full success; every other outcome pushes the fresh
invocation (blacklisted and unresolved ones as no-op markers, the latter
with an unsupported-directive warning) and continues the scan. -/
def processFormDispatch (reuse : Option Nat) (meta1 : Meta)
    (dir1 : Option ControlDirective) (st : RunState) : Except String (RunState × Bool) :=
  match dir1 with
  | some d =>
    if !meta1.begin && meta1.endM then
      match d.endF with
      | none => Except.error "TypeError: end is not a function"
      | some fe =>
        let r := fe NodeType.comment
        let st := { st with trace := st.trace ++ [REvent.endCall meta1.name r] }
        let st :=
          if r then
            match reuse with
            | some i => { st with stack := st.stack.eraseIdx i }
            | none => st
          else st
        Except.ok (st, false)
    else
      if d.expectSelf then
        let b := d.begin NodeType.comment
        let st := { st with trace := st.trace ++ [REvent.beginCall meta1.name b] }
        if b && meta1.endM then
          match d.endF with
          | none => Except.error "TypeError: end is not a function"
          | some fe =>
            let r := fe NodeType.comment
            let st := { st with trace := st.trace ++ [REvent.endCall meta1.name r] }
            if r then Except.ok (st, false)
            else
              Except.ok ({ st with stack :=
                match reuse with
                | some _ => st.stack
                | none => st.stack ++ [⟨meta1, dir1⟩] }, true)
        else
          Except.ok ({ st with stack :=
            match reuse with
            | some _ => st.stack
            | none => st.stack ++ [⟨meta1, dir1⟩] }, true)
      else
        Except.ok ({ st with stack :=
          match reuse with
          | some _ => st.stack
          | none => st.stack ++ [⟨meta1, dir1⟩] }, true)
  | none =>
    let st :=
      if !meta1.blacklist then { st with trace := st.trace ++ [REvent.warnUnsupported meta1.name] }
      else st
    Except.ok ({ st with stack :=
      match reuse with
      | some _ => st.stack
      | none => st.stack ++ [⟨meta1, dir1⟩] }, true)

/-- Processing of one directive form by the `Comment` handler callback
(source lines 76–120), together with the spec-modelled behaviour of
`state.parse`: resolve the form against the open stack and the registry,
append the resolution warnings, store back a reused entry, and dispatch.
Returns the updated state and the continue-scanning signal. -/
def processForm (cfg : Config) (f : Form) (st : RunState) : Except String (RunState × Bool) :=
  let r := resolveForm cfg f st.stack
  let st := { st with trace := st.trace ++ r.2.2.2 }
  let st :=
    match r.1 with
    | some i => { st with stack := st.stack.set i ⟨r.2.1, r.2.2.1⟩ }
    | none => st
  processFormDispatch r.1 r.2.1 r.2.2.1 st

/-- Modelled from the spec: `state.parse` — processes the chained directive
forms of one comment in left-to-right order, stopping when a form's callback
signals completion. -/
def parseForms (cfg : Config) : List Form → RunState → Except String RunState
  | [], st => .ok st
  | f :: rest, st =>
    match processForm cfg f st with
    | .error e => .error e
    | .ok (st', cont) => if cont then parseForms cfg rest st' else .ok st'

/-- A traversal step of one document: the nodes postcss visits, in document
order.  Rule and at-rule visits carry the node identity and its text field
from the externally-owned tree; a declaration visit carries the declaration
fields, its parent rule's identity and kind, and the last-of-its-type test. -/
inductive Visit
  | rule (ruleId : Nat) (selector : String)
  | atrule (atId : Nat) (params : String)
  | decl (node : DeclNode) (parentId : Nat) (parentIsRule : Bool) (isLast : Bool)
  | comment (forms : List Form)

/-- The `Rule` handler: gate the node; when eligible, reset the per-rule flip
counter to zero.  The rule's selector is entered into the selector store as
the tree hands the node over. -/
def ruleVisit (st : RunState) (ruleId : Nat) (sel : String) : Except String RunState :=
  let st := { st with rules := setAssoc st.rules ruleId sel }
  match shouldProcess st.stack ⟨NodeType.rule, false⟩ with
  | .error e => .error e
  | .ok (elig, _, stack', gev) =>
    let st := { st with stack := stack', trace := st.trace ++ gev }
    .ok (if elig then { st with flipped := 0 } else st)

/-- The `AtRule` handler: gate the node; when eligible and URL mirroring is
enabled globally or for at-rules, mirror the parameters. -/
def atRuleVisit (cfg : Config) (st : RunState) (atId : Nat) (params : String) :
    Except String RunState :=
  let st := { st with atParams := setAssoc st.atParams atId params }
  match shouldProcess st.stack ⟨NodeType.atrule, false⟩ with
  | .error e => .error e
  | .ok (elig, _, stack', gev) =>
    let st := { st with stack := stack', trace := st.trace ++ gev }
    .ok (if elig && (cfg.processUrlsAll || cfg.processUrlsAtrule) then
          { st with atParams := setAssoc st.atParams atId (applyStringMap params) }
         else st)

/-- The `Comment` handler: gate the node, then hand the comment's directive
forms to the parser. -/
def commentVisit (cfg : Config) (st : RunState) (forms : List Form) : Except String RunState :=
  match shouldProcess st.stack ⟨NodeType.comment, false⟩ with
  | .error e => .error e
  | .ok (elig, _, stack', gev) =>
    let st := { st with stack := stack', trace := st.trace ++ gev }
    if elig then parseForms cfg forms st else .ok st

/-- The `Declaration` handler (source lines 122–197): gate the node, run the
per-plugin pipeline, add its flip increments to the per-rule counter; unless
a value directive terminated the pipeline, apply the auto-rename trigger:
when auto-rename is on, the counter is zero, the parent is an ordinary rule
and this is the last declaration of its kind, derive the mirrored selector;
under strict mode pair it through the pending-rename table (the matched
pending entry is not removed), otherwise overwrite the selector. -/
def declarationVisit (cfg : Config) (st : RunState) (node : DeclNode)
    (parentId : Nat) (parentIsRule : Bool) (isLast : Bool) : Except String RunState :=
  match shouldProcess st.stack ⟨NodeType.decl, false⟩ with
  | .error e => .error e
  | .ok (elig, _, stack', gev) =>
    let st := { st with stack := stack', trace := st.trace ++ gev }
    if !elig then .ok st
    else
      let (_, ev, inc, term) := declPlugins cfg cfg.plugins node
      let st := { st with trace := st.trace ++ ev, flipped := st.flipped + inc }
      if term then .ok st
      else if !(cfg.autoRename && st.flipped == 0 && parentIsRule && isLast) then .ok st
      else
        let sel := getAssoc st.rules parentId
        let renamed := applyStringMap sel
        if cfg.autoRenameStrict then
          match lookupRename st.toBeRenamed renamed with
          | some pairId =>
            .ok { st with rules := setAssoc (setAssoc st.rules pairId sel) parentId renamed }
          | none =>
            .ok { st with toBeRenamed := setRename st.toBeRenamed sel parentId }
        else
          .ok { st with rules := setAssoc st.rules parentId renamed }

/-- Folds the document's visits through the handlers. -/
def runVisits (cfg : Config) : List Visit → RunState → Except String RunState
  | [], st => .ok st
  | v :: rest, st =>
    match
      (match v with
       | .rule id sel => ruleVisit st id sel
       | .atrule id ps => atRuleVisit cfg st id ps
       | .decl n pid pr last => declarationVisit cfg st n pid pr last
       | .comment fs => commentVisit cfg st fs) with
    | .error e => .error e
    | .ok st' => runVisits cfg rest st'

/-- The `OnceExit` handler: one unclosed-directive warning per still-open
stack entry in stack order, then one skipped-rename warning per remaining
pending-rename entry, then the post-hook. -/
def onceExit (st : RunState) : RunState :=
  { st with trace := st.trace
      ++ st.stack.map (fun e => REvent.warnUnclosed e.metadata.name)
      ++ st.toBeRenamed.map (fun p => REvent.warnSkipped p.2)
      ++ [REvent.postHook] }

/-- The initial run state: empty stack, zero flips, empty tables, empty trace. -/
def initState : RunState := ⟨[], 0, [], [], [], []⟩

/-- A whole run: the `Once` handler (pre-hook, then the root node through the
gate), the traversal, and the `OnceExit` handler. -/
def runDoc (cfg : Config) (doc : List Visit) : Except String RunState :=
  let st0 : RunState := { initState with trace := [REvent.preHook] }
  match shouldProcess st0.stack ⟨NodeType.root, false⟩ with
  | .error e => .error e
  | .ok (_, _, stack', gev) =>
    match runVisits cfg doc { st0 with stack := stack', trace := st0.trace ++ gev } with
    | .error e => .error e
    | .ok st => .ok (onceExit st)

/-! ## Gate characterization -/

/-- An entry is consulted by the walk for a node type iff it is not
blacklisted and its directive expects that type. -/
def consultedB (nt : NodeType) (e : StackEntry) : Bool :=
  !e.metadata.blacklist &&
    (match e.directive with
     | some d => d.expect nt
     | none => false)

/-- The value an entry's begin callback returns for a node type. -/
def beginRet (nt : NodeType) (e : StackEntry) : Bool :=
  match e.directive with
  | some d => d.begin nt
  | none => false

/-- The value an entry's end callback returns for a node type (false when
absent). -/
def endRet (nt : NodeType) (e : StackEntry) : Bool :=
  match e.directive with
  | some d =>
    match d.endF with
    | some f => f nt
    | none => false
  | none => false

/-- The callback events a single consulted entry contributes to the walk. -/
def entryEvents (nt : NodeType) (e : StackEntry) : List REvent :=
  if consultedB nt e then
    REvent.beginCall e.metadata.name (beginRet nt e) ::
      (if e.metadata.endM then [REvent.endCall e.metadata.name (endRet nt e)] else [])
  else []

/-- Well-formedness of a stack entry for a walk at a node type: a consulted
entry has a resolved directive, and when it carries an end marker and is
consulted its end handler is declared (otherwise the walk faults). -/
def entryWFb (nt : NodeType) (e : StackEntry) : Bool :=
  e.metadata.blacklist ||
    (match e.directive with
     | none => false
     | some d => !(d.expect nt && e.metadata.endM) || (d.endF).isSome)

/-- The final processed mark of a walk started with a set mark: set iff no
consulted entry's begin returned true. -/
def gateMark (nt : NodeType) (stack : List StackEntry) : Bool :=
  stack.all (fun e => !(consultedB nt e && beginRet nt e))

/-- The stack left by a walk: an entry is popped exactly when it is
consulted, has its end marker declared, and its end call returns true. -/
def gatePops (nt : NodeType) (stack : List StackEntry) : List StackEntry :=
  stack.filter (fun e => !(consultedB nt e && e.metadata.endM && endRet nt e))

/-- The callback events of a walk, in stack (outermost-first) order. -/
def gateTrace (nt : NodeType) (stack : List StackEntry) : List REvent :=
  stack.flatMap (entryEvents nt)

/-- The walk visits every entry in stack order, accumulates the mark
conjunctively, pops exactly the consulted end-returning entries, and emits
the per-entry events in order. -/
theorem gateWalk_eq (nt : NodeType) (stack : List StackEntry) (m : Bool)
    (h : stack.all (entryWFb nt) = true) :
    gateWalk nt stack m = .ok (m && gateMark nt stack, gatePops nt stack, gateTrace nt stack) := by
  induction stack generalizing m with
  | nil => simp [gateWalk, gateMark, gatePops, gateTrace]
  | cons e rest ih =>
    simp only [List.all_cons, Bool.and_eq_true] at h
    obtain ⟨he, hrest⟩ := h
    by_cases hb : e.metadata.blacklist
    · simp [gateWalk, hb, ih _ hrest, gateMark, gatePops, gateTrace,
        consultedB, entryEvents]
    · simp only [entryWFb, hb, Bool.false_or] at he
      cases hd : e.directive with
      | none => rw [hd] at he; exact absurd he (by simp)
      | some d =>
        rw [hd] at he
        by_cases hex : d.expect nt
        · by_cases hem : e.metadata.endM
          · have hsome : (d.endF).isSome := by
              simpa [hex, hem] using he
            obtain ⟨f, hf⟩ := Option.isSome_iff_exists.mp hsome
            cases hbeg : d.begin nt <;> cases hr : f nt <;>
              simp [gateWalk, hb, hd, hex, hem, hf, hbeg, hr, ih _ hrest,
                gateMark, gatePops, gateTrace, consultedB, beginRet, endRet, entryEvents]
          · cases hbeg : d.begin nt <;>
              simp [gateWalk, hb, hd, hex, hem, hbeg, ih _ hrest,
                gateMark, gatePops, gateTrace, consultedB, beginRet, endRet, entryEvents]
        · simp [gateWalk, hb, hd, hex, ih _ hrest, gateMark, gatePops, gateTrace,
            consultedB, entryEvents]

/-- Claim C4: in the node gate, after an open entry's begin returns true and
clears the processed mark, the remaining open stack entries are still
consulted in nesting order — the emitted events cover every consulted entry
in stack order (`gateTrace`); an entry is popped exactly when it is consulted
with its end marker declared and its end call returns true (`gatePops`); and
the returned eligibility is the final value of the processed mark
(`gateMark`, also written into the node's mark). -/
theorem C4_gate_walk (stack : List StackEntry) (node : GNode)
    (hwf : stack.all (entryWFb node.type) = true) (hp : node.processed = false) :
    shouldProcess stack node =
      .ok (gateMark node.type stack, { node with processed := gateMark node.type stack },
           gatePops node.type stack, gateTrace node.type stack) := by
  simp [shouldProcess, hp, gateWalk_eq node.type stack true hwf]

/-- Directive for the C4 witness: expects declarations, begin claims the
node, no end handler needed. -/
def dW1 : ControlDirective := ⟨fun t => t == NodeType.decl, false, fun _ => true, none⟩

/-- Directive for the C4 witness: expects declarations, begin declines, end
handler pops. -/
def dW2 : ControlDirective := ⟨fun t => t == NodeType.decl, false, fun _ => false, some fun _ => true⟩

/-- Witness stack entry built on `dW1`. -/
def eW1 : StackEntry := ⟨⟨"w1", true, false, false⟩, some dW1⟩

/-- Witness stack entry built on `dW2`, carrying an end marker. -/
def eW2 : StackEntry := ⟨⟨"w2", true, true, false⟩, some dW2⟩

/-- Witness for C4: a two-entry stack where the first begin returns true —
the second entry is still consulted and popped, and the final mark is clear. -/
theorem C4_witness :
    ([eW1, eW2].all (entryWFb NodeType.decl) = true) ∧
    shouldProcess [eW1, eW2] ⟨NodeType.decl, false⟩ =
      .ok (gateMark NodeType.decl [eW1, eW2],
           { GNode.mk NodeType.decl false with processed := gateMark NodeType.decl [eW1, eW2] },
           gatePops NodeType.decl [eW1, eW2], gateTrace NodeType.decl [eW1, eW2]) :=
  ⟨by decide, C4_gate_walk [eW1, eW2] ⟨NodeType.decl, false⟩ (by decide) rfl⟩

/-- Claim C6 (amended): when a gate invocation returns eligible, the node's
processed mark is left set, and any later invocation on that node returns
ineligible immediately — the stack is not walked, no callback events are
emitted and the stack is unchanged.  (When a begin callback claimed the
node, the mark is cleared and a later invocation walks again; see the
counterexample.) -/
theorem C6_gate_idempotent (stack s2 : List StackEntry) (node node' : GNode)
    (s' : List StackEntry) (ev : List REvent)
    (h : shouldProcess stack node = .ok (true, node', s', ev)) :
    shouldProcess s2 node' = .ok (false, node', s2, []) := by
  unfold shouldProcess at h
  by_cases hp : node.processed
  · simp [hp] at h
  · simp only [hp, if_false, Bool.false_eq_true] at h
    cases hw : gateWalk node.type stack true with
    | error e => rw [hw] at h; exact absurd h (by simp)
    | ok t =>
      obtain ⟨m, s, evv⟩ := t
      rw [hw] at h
      simp only [Except.ok.injEq, Prod.mk.injEq] at h
      obtain ⟨hm, hnode, -⟩ := h
      have hpr : node'.processed = true := by
        rw [← hnode, hm]
      simp [shouldProcess, hpr]

/-- Witness for C6 (amended): the empty stack leaves the node eligible and
marked; the second invocation returns immediately. -/
theorem C6_witness :
    shouldProcess ([] : List StackEntry) ⟨NodeType.decl, false⟩ =
      .ok (true, ⟨NodeType.decl, true⟩, [], []) ∧
    shouldProcess [] ⟨NodeType.decl, true⟩ = .ok (false, ⟨NodeType.decl, true⟩, [], []) :=
  ⟨rfl, C6_gate_idempotent [] [] ⟨NodeType.decl, false⟩ ⟨NodeType.decl, true⟩ [] [] rfl⟩

/-- Directive whose begin claims every node (like an ignore scope). -/
def dCex : ControlDirective := ⟨fun _ => true, false, fun _ => true, none⟩

/-- Open stack entry built on `dCex`. -/
def eCex : StackEntry := ⟨⟨"g", true, false, false⟩, some dCex⟩

/-- Claim C6 counterexample: with an open entry whose begin returns true, the
first gate call walks the stack and returns the node with its processed mark
cleared — so a second call on that same (already visited) node is the very
same invocation: it walks the stack again and invokes the begin callback
again, instead of returning immediately with no callbacks. -/
theorem C6_counterexample :
    shouldProcess [eCex] ⟨NodeType.decl, false⟩ =
      .ok (false, ⟨NodeType.decl, false⟩, [eCex], [REvent.beginCall "g" true]) ∧
    (shouldProcess [eCex] ⟨NodeType.decl, false⟩).map (fun r => r.2.2.2) =
      .ok [REvent.beginCall "g" true] ∧
    [REvent.beginCall "g" true] ≠ ([] : List REvent) :=
  ⟨rfl, rfl, by decide⟩

/-! ## Declaration pipeline: processors and value directives -/

/-- Index of the first processor whose pattern matches the alias-resolved
property name. -/
def firstMatchIdx (cfg : Config) (node : DeclNode) : List Processor → Option Nat
  | [] => none
  | p :: rest =>
    if p.expr (effProp cfg node.prop) then some 0
    else (firstMatchIdx cfg node rest).map (· + 1)

/-- Stage B runs the action of exactly the first matching processor. -/
theorem procStage_events (cfg : Config) (pname : String) (procs : List Processor)
    (idx : Nat) (node : DeclNode) :
    (procStage cfg pname procs idx node).2.1 =
      match firstMatchIdx cfg node procs with
      | some j => [REvent.procAction pname (idx + j)]
      | none => [] := by
  induction procs generalizing idx with
  | nil => simp [procStage, firstMatchIdx]
  | cons p rest ih =>
    by_cases hm : p.expr (effProp cfg node.prop)
    · simp only [procStage, hm, if_true, firstMatchIdx]
      split <;> simp
    · simp only [procStage, hm, if_false, firstMatchIdx, Bool.false_eq_true]
      rw [ih (idx + 1)]
      cases firstMatchIdx cfg node rest with
      | none => simp
      | some j => simp; omega

/-- The processor actions a declaration's pipeline executes when no value
directive interferes: for each plugin in registration order, the action of
that plugin's first matching processor (on the declaration as left by the
earlier plugins). -/
def declProcTrace (cfg : Config) : List Plugin → DeclNode → List REvent
  | [], _ => []
  | pl :: rest, node =>
    (match firstMatchIdx cfg node pl.processors with
     | some j => [REvent.procAction pl.name j]
     | none => []) ++
      declProcTrace cfg rest (procStage cfg pl.name pl.processors 0 node).1

/-- Claim C1 (amended): within each plugin only the first matching processor
executes; plugins later in registration order are still consulted and their
first matching processors also execute (on the possibly updated
declaration).  With no value directives in play, the executed processor
actions are exactly `declProcTrace`, one per plugin with a matching pattern. -/
theorem C1_processor_dispatch (cfg : Config) (pls : List Plugin) (node : DeclNode)
    (h : ∀ pl ∈ pls, pl.directives.value = []) :
    (declPlugins cfg pls node).2.1 = declProcTrace cfg pls node := by
  induction pls generalizing node with
  | nil => simp [declPlugins, declProcTrace]
  | cons pl rest ih =>
    have hv : pl.directives.value = [] := h pl (by simp)
    simp only [declPlugins, hv, valueStage, declProcTrace]
    rw [ih _ (fun q hq => h q (by simp [hq])), procStage_events]
    cases firstMatchIdx cfg node pl.processors <;> simp

/-- Plugin `A` for the C1 scenario: flips the property `left` to `right`. -/
def pA : Plugin := ⟨"A", ⟨fun _ => none, []⟩, [⟨fun s => s == "left", fun _ v => ("right", v)⟩]⟩

/-- Plugin `B` for the C1 scenario: matches every property and rewrites the
value. -/
def pB : Plugin := ⟨"B", ⟨fun _ => none, []⟩, [⟨fun _ => true, fun p v => (p, v ++ "x")⟩]⟩

/-- Two-plugin configuration for the C1 counterexample. -/
def cfgC1 : Config :=
  ⟨[pA, pB], fun _ _ => false, fun _ => none, false, false, false, false, false, false⟩

/-- Declaration whose property matches a processor in both plugins. -/
def c1node : DeclNode := ⟨"left", "1", "", none, false, none⟩

/-- Claim C1 counterexample: the declaration's property matches a processor
of both plugins, yet the pipeline executes the matching processor of the
later-registered plugin as well — the event list records both actions and
the flip counter is incremented twice. -/
theorem C1_counterexample :
    firstMatchIdx cfgC1 c1node pA.processors = some 0 ∧
    firstMatchIdx cfgC1 c1node pB.processors = some 0 ∧
    declPlugins cfgC1 cfgC1.plugins c1node =
      (⟨"right", "1x", "", none, false, none⟩,
       [REvent.procAction "A" 0, REvent.procAction "B" 0], 2, false) ∧
    REvent.procAction "B" 0 ∈ [REvent.procAction "A" 0, REvent.procAction "B" 0] := by
  refine ⟨by decide, by decide, by decide, by decide⟩

/-- Neither plugin of the C1 configuration contributes value directives. -/
theorem cfgC1_novdirs : ∀ pl ∈ cfgC1.plugins, pl.directives.value = [] := by
  intro pl hm
  simp only [cfgC1, List.mem_cons, List.not_mem_nil, or_false] at hm
  rcases hm with rfl | rfl <;> rfl

/-- Witness for C1 (amended): at the counterexample input, the executed
actions are exactly one per plugin, in registration order. -/
theorem C1_witness :
    (∀ pl ∈ cfgC1.plugins, pl.directives.value = []) ∧
    (declPlugins cfgC1 cfgC1.plugins c1node).2.1 = declProcTrace cfgC1 cfgC1.plugins c1node :=
  ⟨cfgC1_novdirs, C1_processor_dispatch cfgC1 cfgC1.plugins c1node cfgC1_novdirs⟩

/-- Recognizer for processor-action events. -/
def isProcAction : REvent → Bool
  | .procAction _ _ => true
  | _ => false

/-- Stage A emits only value-directive events, never a processor action. -/
theorem valueStage_no_proc (cfg : Config) (pname : String) (ds : List ValueDirective)
    (node : DeclNode) :
    ∀ ev ∈ (valueStage cfg pname ds node).2.1, isProcAction ev = false := by
  induction ds with
  | nil => simp [valueStage]
  | cons d rest ih =>
    intro ev hev
    by_cases hm : directiveMatch d.name (testedText node)
    · by_cases ha : d.action (testedText node)
      · simp only [valueStage, hm, if_true, ha] at hev
        simp only [List.mem_singleton] at hev
        rw [hev]; rfl
      · simp only [valueStage, hm, if_true, ha, Bool.false_eq_true, if_false,
          List.mem_cons] at hev
        rcases hev with h | h
        · rw [h]; rfl
        · exact ih ev h
    · simp only [valueStage, hm, Bool.false_eq_true, if_false] at hev
      exact ih ev hev

/-- Claim C3 (amended): when a plugin's Stage A succeeds (the tested text
matches a value directive whose action signals success), the declaration
pipeline terminates there with one flip counted: later plugins are not
consulted, and no processor action of any plugin runs. -/
theorem C3_value_directive_precedence (cfg : Config) (pl : Plugin) (rest : List Plugin)
    (node : DeclNode)
    (h : (valueStage cfg pl.name pl.directives.value node).2.2 = true) :
    declPlugins cfg (pl :: rest) node =
      ((valueStage cfg pl.name pl.directives.value node).1,
       (valueStage cfg pl.name pl.directives.value node).2.1, 1, true) ∧
    ∀ ev ∈ (declPlugins cfg (pl :: rest) node).2.1, isProcAction ev = false := by
  rcases hvs : valueStage cfg pl.name pl.directives.value node with ⟨n1, ev1, term⟩
  rw [hvs] at h
  simp only at h
  subst h
  constructor
  · simp [declPlugins, hvs]
  · simp only [declPlugins, hvs]
    intro ev hev
    have := valueStage_no_proc cfg pl.name pl.directives.value node
    rw [hvs] at this
    exact this ev hev

/-- Plugin for the C3 scenario: a value directive whose action declines, and
a processor matching everything. -/
def pC3 : Plugin :=
  ⟨"P", ⟨fun _ => none, [⟨"deny", fun _ => false⟩]⟩, [⟨fun _ => true, fun p v => (p, v ++ "!")⟩]⟩

/-- Single-plugin configuration for the C3 counterexample. -/
def cfgC3 : Config :=
  ⟨[pC3], fun _ _ => false, fun _ => none, false, false, false, false, false, false⟩

/-- Declaration whose tested text carries the `deny` directive token. -/
def c3node : DeclNode := ⟨"color", "/*rtl:deny*/red", "", none, false, none⟩

/-- Claim C3 counterexample: the tested text matches the plugin's value
directive, yet because the directive's action signals failure a processor is
subsequently run on the declaration (its action event is recorded) and the
pipeline does not terminate at the directive. -/
theorem C3_counterexample :
    directiveMatch "deny" (testedText c3node) = true ∧
    declPlugins cfgC3 cfgC3.plugins c3node =
      (⟨"color", "/*rtl:deny*/red!", "", none, false, none⟩,
       [REvent.vdirAction "P" "deny" false, REvent.procAction "P" 0], 1, false) := by
  refine ⟨by decide, by decide⟩

/-- Plugin for the C3 witness: a value directive whose action succeeds, plus
a processor that would match everything. -/
def pC3w : Plugin :=
  ⟨"Q", ⟨fun _ => none, [⟨"ok", fun _ => true⟩]⟩, [⟨fun _ => true, fun p v => (p, v ++ "!")⟩]⟩

/-- Single-plugin configuration for the C3 witness. -/
def cfgC3w : Config :=
  ⟨[pC3w], fun _ _ => false, fun _ => none, false, false, false, false, false, false⟩

/-- Declaration carrying the succeeding `ok` directive token. -/
def c3wnode : DeclNode := ⟨"color", "/*rtl:ok*/red", "", none, false, none⟩

/-- Witness for C3 (amended): with a succeeding value directive, the pipeline
stops at Stage A with one flip and no processor action. -/
theorem C3_witness :
    ((valueStage cfgC3w pC3w.name pC3w.directives.value c3wnode).2.2 = true) ∧
    (declPlugins cfgC3w (pC3w :: []) c3wnode =
      ((valueStage cfgC3w pC3w.name pC3w.directives.value c3wnode).1,
       (valueStage cfgC3w pC3w.name pC3w.directives.value c3wnode).2.1, 1, true) ∧
     ∀ ev ∈ (declPlugins cfgC3w (pC3w :: []) c3wnode).2.1, isProcAction ev = false) :=
  ⟨by decide, C3_value_directive_precedence cfgC3w pC3w [] c3wnode (by decide)⟩

/-- Claim C8 (amended): for a declaration handled by a matching processor,
the set-aside comments are reinserted into the resulting value
(`restoredOf`), and the property and value are both written back with the
flip counter incremented if and only if the returned value (with comments
restored) differs from the original raw value or the returned property
differs while no alias was applied; with an alias in play a property change
alone does not trigger the write-back.  Exactly one processor action runs. -/
theorem C8_processor_writeback (cfg : Config) (pname : String) (p : Processor)
    (rest : List Processor) (idx : Nat) (node : DeclNode)
    (h : p.expr (effProp cfg node.prop) = true) :
    ((procStage cfg pname (p :: rest) idx node).2.2 = 1 ↔
      ((cfg.aliases node.prop = none ∧ (flipPair cfg node p).1 ≠ node.prop) ∨
        restoredOf cfg node p ≠ rawOf node)) ∧
    ((procStage cfg pname (p :: rest) idx node).2.2 = 1 →
      (procStage cfg pname (p :: rest) idx node).1 =
        { node with prop := (flipPair cfg node p).1, value := restoredOf cfg node p }) ∧
    ((procStage cfg pname (p :: rest) idx node).2.2 = 0 →
      (procStage cfg pname (p :: rest) idx node).1 = node) ∧
    (procStage cfg pname (p :: rest) idx node).2.1 = [REvent.procAction pname idx] := by
  by_cases hc : (((cfg.aliases node.prop).isNone && (flipPair cfg node p).1 != node.prop)
      || restoredOf cfg node p != rawOf node) = true
  · have hc' : (cfg.aliases node.prop = none ∧ (flipPair cfg node p).1 ≠ node.prop) ∨
        restoredOf cfg node p ≠ rawOf node := by
      simpa [Option.isNone_iff_eq_none] using hc
    simp [procStage, h, hc, hc']
  · have hc' : ¬((cfg.aliases node.prop = none ∧ (flipPair cfg node p).1 ≠ node.prop) ∨
        restoredOf cfg node p ≠ rawOf node) := by
      simpa [Option.isNone_iff_eq_none] using hc
    simp [procStage, h, hc, hc']

/-- Processor for the C8 scenario: matches the aliased name, flips the
property, keeps the value. -/
def procC8 : Processor := ⟨fun s => s == "margin-left", fun _ v => ("margin-end", v)⟩

/-- Configuration for the C8 scenario: an alias maps the declaration's
property onto the processor's pattern. -/
def cfgC8 : Config :=
  ⟨[⟨"P", ⟨fun _ => none, []⟩, [procC8]⟩], fun _ _ => false,
   fun s => if s = "margin-start" then some "margin-left" else none,
   false, false, false, false, false, false⟩

/-- Declaration resolved through the alias table. -/
def c8node : DeclNode := ⟨"margin-start", "1px", "", none, false, none⟩

/-- Claim C8 counterexample: the processor's returned property differs from
the declaration's property, yet — because the match went through an alias —
nothing is written back and the flip counter is not incremented, refuting
the claimed if-and-only-if. -/
theorem C8_counterexample :
    procStage cfgC8 "P" [procC8] 0 c8node = (c8node, [REvent.procAction "P" 0], 0) ∧
    (flipPair cfgC8 c8node procC8).1 = "margin-end" ∧
    c8node.prop = "margin-start" ∧
    ("margin-end" : String) ≠ "margin-start" := by
  refine ⟨by decide, by decide, by decide, by decide⟩

/-- Witness for C8 (amended): a no-alias input where the property change
alone triggers the write-back with the comments reinserted. -/
theorem C8_witness :
    ((⟨fun s => s == "left", fun _ v => ("right", v)⟩ : Processor).expr
        (effProp cfgC1 c1node.prop) = true) ∧
    ((procStage cfgC1 "A" [⟨fun s => s == "left", fun _ v => ("right", v)⟩] 0 c1node).2.2 = 1 ↔
      ((cfgC1.aliases c1node.prop = none ∧
          (flipPair cfgC1 c1node ⟨fun s => s == "left", fun _ v => ("right", v)⟩).1 ≠ c1node.prop) ∨
        restoredOf cfgC1 c1node ⟨fun s => s == "left", fun _ v => ("right", v)⟩ ≠ rawOf c1node)) :=
  ⟨by decide,
   (C8_processor_writeback cfgC1 "A" ⟨fun s => s == "left", fun _ v => ("right", v)⟩ [] 0 c1node
      (by decide)).1⟩

/-! ## Blacklist suppression -/

/-- A successful innermost lookup returns an index holding an entry with the
looked-up name. -/
theorem findLastIdx_get (n : String) (stack : List StackEntry) (i : Nat)
    (h : findLastIdx n stack = some i) :
    ∃ e, stack[i]? = some e ∧ e.metadata.name = n := by
  induction stack generalizing i with
  | nil => simp [findLastIdx] at h
  | cons e rest ih =>
    simp only [findLastIdx] at h
    cases hf : findLastIdx n rest with
    | some j =>
      rw [hf] at h
      simp only [Option.some.injEq] at h
      obtain ⟨e', he', hn⟩ := ih j hf
      subst h
      exact ⟨e', by simpa using he', hn⟩
    | none =>
      rw [hf] at h
      by_cases hn : e.metadata.name = n
      · rw [if_pos hn] at h
        simp only [Option.some.injEq] at h
        subst h
        exact ⟨e, by simp, hn⟩
      · rw [if_neg hn] at h; cases h

/-- When the first deciding plugin blacklists a name, resolution marks the
metadata blacklisted, resolves no directive, and warns exactly on a
begin-occurrence that carries no end marker. -/
theorem resolveLoop_blacklisted (cfg : Config) (m : Meta) (pls : List Plugin)
    (h : nameDecision cfg m.name pls = some true) :
    ∃ pn, resolveLoop cfg m pls =
      ({ m with blacklist := true }, none,
       if m.endM then [] else if m.begin then [REvent.warnBlacklisted pn m.name] else []) := by
  induction pls with
  | nil => simp [nameDecision] at h
  | cons pl rest ih =>
    by_cases hb : cfg.blacklist pl.name m.name
    · refine ⟨pl.name, ?_⟩
      simp only [resolveLoop, hb, if_true]
      split_ifs <;> rfl
    · simp only [nameDecision, hb, Bool.false_eq_true, if_false] at h
      by_cases hc : (pl.directives.control m.name).isSome
      · rw [if_pos hc] at h; simp at h
      · rw [if_neg hc] at h
        obtain ⟨pn, hpn⟩ := ih h
        have hnone : pl.directives.control m.name = none :=
          Option.not_isSome_iff_eq_none.mp hc
        exact ⟨pn, by simp only [resolveLoop, hb, Bool.false_eq_true, if_false, hnone, hpn]⟩

/-- Every event of the walk's trace names a non-blacklisted member of the
stack. -/
theorem gateTrace_names (nt : NodeType) (stack : List StackEntry) :
    ∀ ev ∈ gateTrace nt stack, ∃ e, e ∈ stack ∧ e.metadata.blacklist = false ∧
      (ev = REvent.beginCall e.metadata.name (beginRet nt e) ∨
        ev = REvent.endCall e.metadata.name (endRet nt e)) := by
  intro ev hmem
  simp only [gateTrace, List.mem_flatMap] at hmem
  obtain ⟨e, he, hev⟩ := hmem
  by_cases hc : consultedB nt e = true
  · have hnb : e.metadata.blacklist = false := by
      rcases hbl : e.metadata.blacklist with _ | _
      · rfl
      · simp [consultedB, hbl] at hc
    refine ⟨e, he, hnb, ?_⟩
    simp only [entryEvents, hc, if_true, List.mem_cons] at hev
    rcases hev with hev | hev
    · exact Or.inl hev
    · by_cases hem : e.metadata.endM
      · simp only [hem, if_true, List.mem_singleton] at hev
        exact Or.inr hev
      · simp [hem] at hev
  · simp [entryEvents, hc] at hev

/-- The walk's events only name non-blacklisted entries: with every open
entry of a given name blacklisted, the gate invokes none of that name's
callbacks. -/
theorem gateTrace_blacklisted (nt : NodeType) (stack : List StackEntry) (n : String)
    (hb : ∀ e ∈ stack, e.metadata.name = n → e.metadata.blacklist = true) :
    ∀ b, REvent.beginCall n b ∉ gateTrace nt stack ∧ REvent.endCall n b ∉ gateTrace nt stack := by
  intro b
  constructor
  · intro hmem
    obtain ⟨e, he, hnb, hev | hev⟩ := gateTrace_names nt stack _ hmem
    · have hn : e.metadata.name = n := by injection hev with h1 h2; exact h1.symm
      rw [hb e he hn] at hnb; cases hnb
    · cases hev
  · intro hmem
    obtain ⟨e, he, hnb, hev | hev⟩ := gateTrace_names nt stack _ hmem
    · cases hev
    · have hn : e.metadata.name = n := by injection hev with h1 h2; exact h1.symm
      rw [hb e he hn] at hnb; cases hnb

/-- Claim C5 (amended): for a directive name whose first deciding plugin (the
earliest-registered plugin that either blacklists or defines it) blacklists
it — and with every open entry of that name blacklisted and unresolved — the
comment parser invokes no begin/end callback and adds exactly one
blacklisted-directive warning when the form is a begin-occurrence without an
end marker, and none otherwise; and the node gate invokes no callback of
that name either.  (A later-registered plugin's blacklist entry does not
suppress a name an earlier plugin defines; see the counterexample.) -/
theorem C5_blacklist_suppression (cfg : Config) (f : Form) (st : RunState)
    (nt : NodeType) (stack2 : List StackEntry)
    (hbl : nameDecision cfg f.name cfg.plugins = some true)
    (hst : ∀ e ∈ st.stack, e.metadata.name = f.name →
      e.metadata.blacklist = true ∧ e.directive = none)
    (hb2 : ∀ e ∈ stack2, e.metadata.name = f.name → e.metadata.blacklist = true) :
    (∃ pn, (processForm cfg f st).map (fun r => (r.1.trace, r.2)) =
      .ok (st.trace ++
        (if f.begin && !f.endM then [REvent.warnBlacklisted pn f.name] else []), true)) ∧
    (∀ b, REvent.beginCall f.name b ∉ gateTrace nt stack2 ∧
      REvent.endCall f.name b ∉ gateTrace nt stack2) := by
  refine ⟨?_, gateTrace_blacklisted nt stack2 f.name hb2⟩
  rcases hfb : f.begin with _ | _ <;> rcases hfe : f.endM with _ | _
  · -- begin = false, endM = false: fresh entry, no warning
    obtain ⟨pn, hres⟩ := resolveLoop_blacklisted cfg ⟨f.name, false, false, false⟩
      cfg.plugins hbl
    exact ⟨pn, by simp [processForm, resolveForm, processFormDispatch, hfb, hfe, hres, Except.map]⟩
  · -- begin = false, endM = true: end-only occurrence, possibly reused entry
    cases hfind : findLastIdx f.name st.stack with
    | some i =>
      obtain ⟨e, hget, hname⟩ := findLastIdx_get f.name st.stack i hfind
      have hmem : e ∈ st.stack := List.getElem?_mem hget
      obtain ⟨hebl, hedir⟩ := hst e hmem hname
      obtain ⟨pn, hres⟩ := resolveLoop_blacklisted cfg
        ⟨f.name, false, true, true⟩ cfg.plugins hbl
      refine ⟨pn, ?_⟩
      simp [processForm, resolveForm, processFormDispatch, hfb, hfe, hfind, hget, hedir, hname, hebl, hres, Except.map]
    | none =>
      obtain ⟨pn, hres⟩ := resolveLoop_blacklisted cfg ⟨f.name, false, true, false⟩
        cfg.plugins hbl
      exact ⟨pn, by simp [processForm, resolveForm, processFormDispatch, hfb, hfe, hfind, hres, Except.map]⟩
  · -- begin = true, endM = false: begin-occurrence, exactly one warning
    obtain ⟨pn, hres⟩ := resolveLoop_blacklisted cfg ⟨f.name, true, false, false⟩
      cfg.plugins hbl
    exact ⟨pn, by simp [processForm, resolveForm, processFormDispatch, hfb, hfe, hres, Except.map]⟩
  · -- begin = true, endM = true: self-carrying occurrence, no warning
    obtain ⟨pn, hres⟩ := resolveLoop_blacklisted cfg ⟨f.name, true, true, false⟩
      cfg.plugins hbl
    exact ⟨pn, by simp [processForm, resolveForm, processFormDispatch, hfb, hfe, hres, Except.map]⟩

/-- Directive defined by plugin `F` for the C5 scenario. -/
def dirF : ControlDirective := ⟨fun _ => false, true, fun _ => true, some fun _ => false⟩

/-- Configuration for the C5 counterexample: plugin `F` defines `foo`,
plugin `G` blacklists `foo`, and `F` is registered first. -/
def cfgC5 : Config :=
  ⟨[⟨"F", ⟨fun n => if n = "foo" then some dirF else none, []⟩, []⟩,
    ⟨"G", ⟨fun _ => none, []⟩, []⟩],
   fun pn dn => pn == "G" && dn == "foo", fun _ => none,
   false, false, false, false, false, false⟩

/-- A document consisting of one begin-occurrence of `foo`. -/
def docC5 : List Visit := [.comment [⟨"foo", true, false⟩]]

/-- Claim C5 counterexample: `foo` is found in plugin `G`'s blacklist table,
yet its begin callback is invoked (the earlier-registered plugin `F` resolves
the name first) and the begin-occurrence emits no blacklisted-directive
warning. -/
theorem C5_counterexample :
    cfgC5.blacklist "G" "foo" = true ∧
    (runDoc cfgC5 docC5).toOption.map (fun st => st.trace) =
      some [REvent.preHook, REvent.beginCall "foo" true,
            REvent.warnUnclosed "foo", REvent.postHook] := by
  refine ⟨by decide, by decide⟩

/-- Configuration for the C5 witness: its only plugin blacklists `bl`. -/
def cfg5w : Config :=
  ⟨[⟨"G", ⟨fun _ => none, []⟩, []⟩],
   fun pn dn => pn == "G" && dn == "bl", fun _ => none,
   false, false, false, false, false, false⟩

/-- Witness for C5 (amended): a begin-occurrence of the blacklisted `bl`
yields exactly one warning and no callback events. -/
theorem C5_witness :
    (nameDecision cfg5w "bl" cfg5w.plugins = some true) ∧
    ((∃ pn, (processForm cfg5w ⟨"bl", true, false⟩ initState).map (fun r => (r.1.trace, r.2)) =
        .ok (initState.trace ++
          (if (Form.mk "bl" true false).begin && !(Form.mk "bl" true false).endM
           then [REvent.warnBlacklisted pn (Form.mk "bl" true false).name] else []), true)) ∧
      (∀ b, REvent.beginCall (Form.mk "bl" true false).name b ∉ gateTrace NodeType.decl [] ∧
        REvent.endCall (Form.mk "bl" true false).name b ∉ gateTrace NodeType.decl [])) :=
  ⟨by decide,
   C5_blacklist_suppression cfg5w ⟨"bl", true, false⟩ initState NodeType.decl []
     (by decide) (by intro e he; cases he) (by intro e he; cases he)⟩

/-! ## Strict auto-rename pairing -/

/-- Plugin-free configuration with strict auto-rename enabled. -/
def cfgC2 : Config :=
  ⟨[], fun _ _ => false, fun _ => none, false, true, true, false, false, false⟩

/-- A declaration no plugin flips. -/
def dN : DeclNode := ⟨"color", "red", "", none, false, none⟩

/-- Two sibling rules whose selectors are exact string mirrors, each with one
unflipped last declaration. -/
def docC2 : List Visit :=
  [.rule 1 ".left", .decl dN 1 true true, .rule 2 ".right", .decl dN 2 true true]

/-- Claim C2, evaluated at the failing input: the two mirrored rules end with
swapped selectors, but the matched pending entry is left in the table, so the
document end emits a skipped-rename warning for the paired rule — the code
never removes the entry on a successful pairing. -/
theorem C2_strict_rename_bug :
    applyStringMap ".left" = ".right" ∧
    applyStringMap ".right" = ".left" ∧
    (runDoc cfgC2 docC2).toOption.map (fun st => (st.rules, st.toBeRenamed, st.trace)) =
      some ([(1, ".right"), (2, ".left")], [(".left", 1)],
            [REvent.preHook, REvent.warnSkipped 1, REvent.postHook]) := by
  refine ⟨by decide, by decide, by decide⟩

/-! ## Per-rule flip counter -/

/-- Claim C10: the per-rule flip counter is reset to zero exactly when a rule
node passes the node gate (otherwise the leftover value survives), and a
declaration whose pipeline produced zero flips still skips the auto-rename
trigger when the leftover counter is non-zero — the zero-flip test reads the
run-level counter, not a per-rule count. -/
theorem C10_flip_counter (cfg : Config) (st : RunState) (ruleId : Nat) (sel : String)
    (node : DeclNode) (parentId : Nat) (elig : Bool)
    (n1 n2 : GNode) (s1 s2 : List StackEntry) (ev1 ev2 : List REvent)
    (hrule : shouldProcess st.stack ⟨NodeType.rule, false⟩ = .ok (elig, n1, s1, ev1))
    (hdecl : shouldProcess st.stack ⟨NodeType.decl, false⟩ = .ok (true, n2, s2, ev2))
    (hinc : (declPlugins cfg cfg.plugins node).2.2.1 = 0)
    (hflip : st.flipped ≠ 0) :
    ruleVisit st ruleId sel =
      .ok ⟨s1, (if elig then 0 else st.flipped), st.toBeRenamed,
           setAssoc st.rules ruleId sel, st.atParams, st.trace ++ ev1⟩ ∧
    declarationVisit cfg st node parentId true true =
      .ok ⟨s2, st.flipped, st.toBeRenamed, st.rules, st.atParams,
           st.trace ++ ev2 ++ (declPlugins cfg cfg.plugins node).2.1⟩ := by
  constructor
  · rw [ruleVisit]
    rw [show ({ st with rules := setAssoc st.rules ruleId sel } : RunState).stack = st.stack
      from rfl, hrule]
    cases elig <;> simp
  · rw [declarationVisit, hdecl]
    rcases hdp : declPlugins cfg cfg.plugins node with ⟨n', ev, inc, term⟩
    rw [hdp] at hinc
    simp only at hinc
    subst hinc
    have hz : (st.flipped + 0 == 0) = false := by
      simp [hflip]
    cases term
    · simp only [Bool.false_eq_true, if_false, Bool.not_eq_true]
      simp
      intro _ h
      exact absurd h hflip
    · simp

/-- Directive for the C10 witness: claims rule nodes, ignores declarations. -/
def dC10 : ControlDirective := ⟨fun t => t == NodeType.rule, false, fun _ => true, none⟩

/-- Open entry built on `dC10`. -/
def eC10 : StackEntry := ⟨⟨"r", true, false, false⟩, some dC10⟩

/-- Run state with a leftover flip count from the previous eligible rule. -/
def stC10 : RunState := ⟨[eC10], 1, [], [], [], []⟩

/-- Plugin-free configuration with strict auto-rename for the C10 witness. -/
def cfgC10 : Config :=
  ⟨[], fun _ _ => false, fun _ => none, false, true, true, false, false, false⟩

/-- Witness for C10: a rule gated ineligible keeps the leftover counter, and
the following unflipped declaration skips auto-rename because of it. -/
theorem C10_witness :
    shouldProcess stC10.stack ⟨NodeType.rule, false⟩ =
      .ok (false, ⟨NodeType.rule, false⟩, [eC10], [REvent.beginCall "r" true]) ∧
    shouldProcess stC10.stack ⟨NodeType.decl, false⟩ =
      .ok (true, ⟨NodeType.decl, true⟩, [eC10], []) ∧
    (declPlugins cfgC10 cfgC10.plugins dN).2.2.1 = 0 ∧
    stC10.flipped ≠ 0 ∧
    (ruleVisit stC10 7 ".a" =
      .ok ⟨[eC10], (if false then 0 else stC10.flipped), stC10.toBeRenamed,
           setAssoc stC10.rules 7 ".a", stC10.atParams,
           stC10.trace ++ [REvent.beginCall "r" true]⟩ ∧
     declarationVisit cfgC10 stC10 dN 7 true true =
      .ok ⟨[eC10], stC10.flipped, stC10.toBeRenamed, stC10.rules, stC10.atParams,
           stC10.trace ++ [] ++ (declPlugins cfgC10 cfgC10.plugins dN).2.1⟩) :=
  ⟨rfl, rfl, by decide, by decide,
   C10_flip_counter cfgC10 stC10 7 ".a" dN 7 false
     ⟨NodeType.rule, false⟩ ⟨NodeType.decl, true⟩ [eC10] [eC10]
     [REvent.beginCall "r" true] []
     rfl rfl (by decide) (by decide)⟩

/-! ## Document-end warnings -/

/-- Directive for the C7 scenario: expects no node type, a declining begin,
an end handler that closes immediately. -/
def dir7 : ControlDirective := ⟨fun _ => false, false, fun _ => false, some fun _ => true⟩

/-- Configuration for the C7 scenario: one plugin resolving every directive
name to `dir7`, auto-rename strict. -/
def cfg7 : Config :=
  ⟨[⟨"P", ⟨fun _ => some dir7, []⟩, []⟩], fun _ _ => false, fun _ => none,
   false, true, true, false, false, false⟩

/-- A begin-occurrence form. -/
def bForm (n : String) : Form := ⟨n, true, false⟩

/-- An end-only form. -/
def eForm (n : String) : Form := ⟨n, false, true⟩

/-- The stack entry a begin-occurrence of `n` pushes in the C7 scenario. -/
def entry7 (n : String) : StackEntry := ⟨⟨n, true, false, false⟩, some dir7⟩

/-- The stack consisting of `entry7` entries for the given names. -/
def stackOf (ms : List String) : List StackEntry := ms.map entry7

/-- `N` balanced begin/end pairs of the directive `x`, one form per comment. -/
def pairs7 : Nat → List Visit
  | 0 => []
  | k + 1 => .comment [bForm "x"] :: .comment [eForm "x"] :: pairs7 k

/-- Unmatched begin-occurrences for the given names, in order. -/
def begins7 (ns : List String) : List Visit := ns.map fun n => .comment [bForm n]

/-- The C7 document: `N` balanced pairs, then the unmatched begins, then a
lone rule whose last declaration is unflipped (a pending rename). -/
def doc7 (N : Nat) (ns : List String) : List Visit :=
  pairs7 N ++ (begins7 ns ++ [.rule 1 ".a", .decl dN 1 true true])

/-- `entry7` stacks are neutral for the walk: no type is expected, so the
walk changes nothing and emits nothing. -/
theorem gateWalk_stackOf (nt : NodeType) (ms : List String) (m : Bool) :
    gateWalk nt (stackOf ms) m = .ok (m, stackOf ms, []) := by
  induction ms with
  | nil => simp [gateWalk, stackOf]
  | cons n rest ih => simp [gateWalk, stackOf, entry7, dir7] at ih ⊢; rw [ih]

/-- The gate is neutral on `entry7` stacks: every fresh node is eligible. -/
theorem shouldProcess_stackOf (nt : NodeType) (ms : List String) :
    shouldProcess (stackOf ms) ⟨nt, false⟩ = .ok (true, ⟨nt, true⟩, stackOf ms, []) := by
  simp [shouldProcess, gateWalk_stackOf]

/-- A begin-occurrence in the C7 scenario pushes its entry and continues. -/
theorem processForm_begin7 (n : String) (st : RunState) :
    processForm cfg7 (bForm n) st = .ok ({ st with stack := st.stack ++ [entry7 n] }, true) := by
  simp [processForm, resolveForm, processFormDispatch, bForm, cfg7, resolveLoop, dir7, entry7]

/-- Appending an entry with the looked-up name puts the innermost index at
the end. -/
theorem findLastIdx_concat (n : String) (s : List StackEntry) (e : StackEntry)
    (h : e.metadata.name = n) :
    findLastIdx n (s ++ [e]) = some s.length := by
  induction s with
  | nil => simp [findLastIdx, h]
  | cons a s ih => simp [findLastIdx, ih]

/-- Setting the appended last element. -/
theorem set_concat_length (s : List StackEntry) (e e' : StackEntry) :
    (s ++ [e]).set s.length e' = s ++ [e'] := by
  induction s with
  | nil => rfl
  | cons a s ih => simp [List.set_cons_succ, ih]

/-- Erasing the appended last element. -/
theorem eraseIdx_concat_length (s : List StackEntry) (e : StackEntry) :
    (s ++ [e]).eraseIdx s.length = s := by
  induction s with
  | nil => rfl
  | cons a s ih => simp [List.eraseIdx_cons_succ, ih]

/-- An end-only occurrence in the C7 scenario finds the innermost entry of
its name, runs its end handler (which succeeds), pops it, and stops. -/
theorem processForm_end7 (n : String) (ms : List String) (st : RunState)
    (hst : st.stack = stackOf ms ++ [entry7 n]) :
    processForm cfg7 (eForm n) st =
      .ok ({ st with stack := stackOf ms
                     trace := st.trace ++ [REvent.endCall n true] }, false) := by
  obtain ⟨stk, fl, tbr, rl, ap, tr⟩ := st
  simp only at hst
  subst hst
  have hfind : findLastIdx n (stackOf ms ++ [entry7 n]) = some (stackOf ms).length :=
    findLastIdx_concat n _ _ rfl
  have hget : (stackOf ms ++ [entry7 n])[(stackOf ms).length]? = some (entry7 n) := by
    simp
  simp only [processForm, resolveForm, processFormDispatch, eForm, Bool.not_false,
    Bool.and_true, if_true, hfind, hget, Option.getD_some]
  simp [set_concat_length, eraseIdx_concat_length, entry7, dir7]

/-- Unfolding of the visit fold over one successfully handled visit. -/
theorem runVisits_comment (cfg : Config) (fs : List Form) (vs : List Visit)
    (st st' : RunState) (h : commentVisit cfg st fs = .ok st') :
    runVisits cfg (.comment fs :: vs) st = runVisits cfg vs st' := by
  simp only [runVisits, h]

/-- Unfolding of the visit fold over one successfully handled rule visit. -/
theorem runVisits_rule (cfg : Config) (ruleId : Nat) (sel : String) (vs : List Visit)
    (st st' : RunState) (h : ruleVisit st ruleId sel = .ok st') :
    runVisits cfg (.rule ruleId sel :: vs) st = runVisits cfg vs st' := by
  simp only [runVisits, h]

/-- Unfolding of the visit fold over one successfully handled declaration. -/
theorem runVisits_decl (cfg : Config) (node : DeclNode) (pid : Nat) (pr last : Bool)
    (vs : List Visit) (st st' : RunState)
    (h : declarationVisit cfg st node pid pr last = .ok st') :
    runVisits cfg (.decl node pid pr last :: vs) st = runVisits cfg vs st' := by
  simp only [runVisits, h]

/-- A begin-occurrence comment grows the neutral stack. -/
theorem commentVisit_begin7 (n : String) (ms : List String) (st : RunState)
    (hst : st.stack = stackOf ms) :
    commentVisit cfg7 st [bForm n] = .ok { st with stack := stackOf (ms ++ [n]) } := by
  obtain ⟨stk, fl, tbr, rl, ap, tr⟩ := st
  simp only at hst
  subst hst
  rw [commentVisit]
  rw [show (⟨stackOf ms, fl, tbr, rl, ap, tr⟩ : RunState).stack = stackOf ms from rfl]
  rw [shouldProcess_stackOf]
  simp [parseForms, processForm_begin7, stackOf]

/-- An end-only comment shrinks the neutral stack and records the end call. -/
theorem commentVisit_end7 (n : String) (ms : List String) (st : RunState)
    (hst : st.stack = stackOf (ms ++ [n])) :
    commentVisit cfg7 st [eForm n] =
      .ok { st with stack := stackOf ms
                    trace := st.trace ++ [REvent.endCall n true] } := by
  obtain ⟨stk, fl, tbr, rl, ap, tr⟩ := st
  simp only at hst
  subst hst
  rw [commentVisit]
  have hs : stackOf (ms ++ [n]) = stackOf ms ++ [entry7 n] := by simp [stackOf]
  rw [shouldProcess_stackOf]
  simp only [if_true, List.append_nil]
  rw [parseForms]
  rw [processForm_end7 n ms _ (by simp [stackOf])]
  simp

/-- One balanced pair leaves the stack empty again, adding one end-call
event. -/
theorem pair_step7 (st : RunState) (vs : List Visit) (hst : st.stack = []) :
    runVisits cfg7 (.comment [bForm "x"] :: .comment [eForm "x"] :: vs) st =
      runVisits cfg7 vs { st with trace := st.trace ++ [REvent.endCall "x" true] } := by
  obtain ⟨stk, fl, tbr, rl, ap, tr⟩ := st
  simp only at hst
  subst hst
  rw [runVisits_comment cfg7 _ _ _ _ (commentVisit_begin7 "x" [] _ rfl)]
  rw [runVisits_comment cfg7 _ _ _ _ (commentVisit_end7 "x" [] _ (by simp [stackOf]))]
  rfl

/-- `N` balanced pairs leave any empty-stack state with the same stack and
`N` end-call events appended. -/
theorem pairs_run7 (N : Nat) : ∀ (st : RunState) (vs : List Visit), st.stack = [] →
    runVisits cfg7 (pairs7 N ++ vs) st =
      runVisits cfg7 vs
        { st with trace := st.trace ++ List.replicate N (REvent.endCall "x" true) } := by
  induction N with
  | zero =>
    intro st vs hst
    simp [pairs7]
  | succ k ih =>
    intro st vs hst
    rw [pairs7, List.cons_append, List.cons_append, pair_step7 _ _ hst]
    rw [ih ⟨st.stack, st.flipped, st.toBeRenamed, st.rules, st.atParams,
      st.trace ++ [REvent.endCall "x" true]⟩ vs hst]
    simp [List.replicate_succ]

/-- The unmatched begins push one entry each, in order. -/
theorem begins_run7 (ns : List String) : ∀ (ms : List String) (st : RunState)
    (vs : List Visit), st.stack = stackOf ms →
    runVisits cfg7 (begins7 ns ++ vs) st =
      runVisits cfg7 vs { st with stack := stackOf (ms ++ ns) } := by
  induction ns with
  | nil =>
    intro ms st vs hst
    have heq : ({ st with stack := stackOf (ms ++ []) } : RunState) = st := by
      rw [List.append_nil, ← hst]
    rw [heq]
    simp [begins7]
  | cons n rest ih =>
    intro ms st vs hst
    rw [begins7, List.map_cons, List.cons_append]
    rw [runVisits_comment cfg7 _ _ _ _ (commentVisit_begin7 n ms st hst)]
    rw [show (List.map (fun n => Visit.comment [bForm n]) rest) = begins7 rest from rfl]
    rw [ih (ms ++ [n]) _ vs rfl]
    simp

/-- In the C7 scenario the lone rule is gated eligible and registered. -/
theorem ruleVisit7 (ns : List String) (fl : Nat) (tr : List REvent) :
    ruleVisit ⟨stackOf ns, fl, [], [], [], tr⟩ 1 ".a" =
      .ok ⟨stackOf ns, 0, [], [(1, ".a")], [], tr⟩ := by
  rw [ruleVisit]
  rw [show setAssoc (⟨stackOf ns, fl, [], [], [], tr⟩ : RunState).rules 1 ".a" = [(1, ".a")]
    from rfl]
  rw [show ({ (⟨stackOf ns, fl, [], [], [], tr⟩ : RunState) with
      rules := [(1, ".a")] } : RunState).stack = stackOf ns from rfl]
  rw [shouldProcess_stackOf]
  simp

/-- In the C7 scenario the lone unflipped last declaration registers a
pending rename. -/
theorem declVisit7 (ns : List String) (tr : List REvent) :
    declarationVisit cfg7 ⟨stackOf ns, 0, [], [(1, ".a")], [], tr⟩ dN 1 true true =
      .ok ⟨stackOf ns, 0, [(".a", 1)], [(1, ".a")], [], tr⟩ := by
  rw [declarationVisit]
  rw [show (⟨stackOf ns, 0, [], [(1, ".a")], [], tr⟩ : RunState).stack = stackOf ns from rfl]
  rw [shouldProcess_stackOf]
  simp only
  simp only [if_true, List.append_nil, Bool.not_true]
  rw [show declPlugins cfg7 cfg7.plugins dN = (dN, [], 0, false) from rfl]
  simp only [List.append_nil]
  rw [show getAssoc ((⟨stackOf ns, 0, [], [(1, ".a")], [], tr⟩ : RunState)).rules 1 = ".a"
    from rfl]
  rw [show applyStringMap ".a" = ".a" from by decide]
  simp [cfg7, lookupRename, setRename]

/-- Claim C7: at document end, exactly one unclosed-directive warning is
emitted per still-open stack entry (`N` balanced pairs contribute none, the
unmatched begins contribute exactly one each in stack order), followed by
one skipped-rename warning per remaining pending-rename entry, followed by
the post-hook invocation. -/
theorem C7_document_end_warnings (N : Nat) (ns : List String) :
    (runDoc cfg7 (doc7 N ns)).toOption.map (fun st => st.trace) =
      some ([REvent.preHook] ++ List.replicate N (REvent.endCall "x" true)
        ++ ns.map REvent.warnUnclosed ++ [REvent.warnSkipped 1, REvent.postHook]) := by
  have hrd : runDoc cfg7 (doc7 N ns) =
      (match runVisits cfg7 (doc7 N ns) ⟨[], 0, [], [], [], [REvent.preHook]⟩ with
       | .error e => Except.error e
       | .ok st => Except.ok (onceExit st)) := rfl
  rw [hrd, doc7]
  rw [pairs_run7 N _ _ rfl]
  dsimp only
  rw [begins_run7 ns [] _ _ rfl]
  dsimp only [List.nil_append]
  rw [runVisits_rule cfg7 1 ".a" _ _ _ (ruleVisit7 ns 0 _)]
  rw [runVisits_decl cfg7 dN 1 true true _ _ _ (declVisit7 ns _)]
  simp only [runVisits]
  simp [onceExit, stackOf, entry7, Function.comp_def]
  exact ⟨_, rfl, rfl⟩

/-! ## Run safety -/

/-- Run invariant on a stack entry: an unresolved entry is blacklisted, and
a resolved entry's directive declares its end handler. -/
def entryOKb (e : StackEntry) : Bool :=
  match e.directive with
  | none => e.metadata.blacklist
  | some d => (d.endF).isSome

/-- Configuration well-formedness: every control directive any plugin
defines declares its end handler. -/
def cfgOK (cfg : Config) : Prop :=
  ∀ pl ∈ cfg.plugins, ∀ n d, pl.directives.control n = some d → (d.endF).isSome = true

/-- The directive forms a visit carries. -/
def formsOfVisit : Visit → List Form
  | .comment fs => fs
  | _ => []

/-- Document well-formedness: every directive name used in the document is
decided by some plugin (blacklisted or defined). -/
def docOK (cfg : Config) (doc : List Visit) : Prop :=
  ∀ v ∈ doc, ∀ f ∈ formsOfVisit v, (nameDecision cfg f.name cfg.plugins).isSome = true

/-- The run invariant implies walk well-formedness at every node type. -/
theorem entryOKb_wf (nt : NodeType) (e : StackEntry) (h : entryOKb e = true) :
    entryWFb nt e = true := by
  cases hd : e.directive with
  | none =>
    have h' : e.metadata.blacklist = true := by simpa [entryOKb, hd] using h
    simp [entryWFb, hd, h']
  | some d =>
    have h' : (d.endF).isSome = true := by simpa [entryOKb, hd] using h
    simp [entryWFb, hd, h']

/-- Replacing an entry with an invariant-respecting one preserves the
invariant. -/
theorem all_set_entry (l : List StackEntry) (i : Nat) (e : StackEntry)
    (h : l.all entryOKb = true) (he : entryOKb e = true) :
    (l.set i e).all entryOKb = true := by
  rw [List.all_eq_true] at h ⊢
  intro x hx
  rcases List.mem_or_eq_of_mem_set hx with hx' | rfl
  · exact h x hx'
  · exact he

/-- Popping an entry preserves the invariant. -/
theorem all_eraseIdx (l : List StackEntry) (i : Nat) (h : l.all entryOKb = true) :
    (l.eraseIdx i).all entryOKb = true := by
  rw [List.all_eq_true] at h ⊢
  intro x hx
  exact h x ((List.eraseIdx_sublist l i).subset hx)

/-- Pushing an invariant-respecting entry preserves the invariant. -/
theorem all_push_entry (l : List StackEntry) (e : StackEntry)
    (h : l.all entryOKb = true) (he : entryOKb e = true) :
    (l ++ [e]).all entryOKb = true := by
  simp [List.all_append, h, he]

/-- Under the invariant the gate never faults and preserves the invariant. -/
theorem shouldProcess_ok (stack : List StackEntry) (node : GNode)
    (h : stack.all entryOKb = true) :
    ∃ elig node' stack' ev, shouldProcess stack node = .ok (elig, node', stack', ev) ∧
      stack'.all entryOKb = true := by
  by_cases hp : node.processed
  · exact ⟨false, node, stack, [], by simp [shouldProcess, hp], h⟩
  · have hwf : stack.all (entryWFb node.type) = true := by
      rw [List.all_eq_true] at h ⊢
      exact fun e he => entryOKb_wf node.type e (h e he)
    refine ⟨gateMark node.type stack, { node with processed := gateMark node.type stack },
      gatePops node.type stack, gateTrace node.type stack, ?_, ?_⟩
    · simp [shouldProcess, hp, gateWalk_eq node.type stack true hwf]
    · rw [List.all_eq_true] at h ⊢
      intro e he
      exact h e (List.mem_of_mem_filter he)

/-- When the first deciding plugin defines a name, resolution returns that
plugin's control directive with no warning. -/
theorem resolveLoop_resolved (cfg : Config) (m : Meta) (pls : List Plugin)
    (h : nameDecision cfg m.name pls = some false) :
    ∃ d, resolveLoop cfg m pls = (m, some d, []) ∧
      ∃ pl, pl ∈ pls ∧ pl.directives.control m.name = some d := by
  induction pls with
  | nil => simp [nameDecision] at h
  | cons pl rest ih =>
    by_cases hb : cfg.blacklist pl.name m.name
    · simp [nameDecision, hb] at h
    · simp only [nameDecision, hb, Bool.false_eq_true, if_false] at h
      cases hc : pl.directives.control m.name with
      | some d =>
        refine ⟨d, ?_, pl, by simp, hc⟩
        simp [resolveLoop, hb, hc]
      | none =>
        rw [hc] at h
        simp only [Option.isSome_none, Bool.false_eq_true, if_false] at h
        obtain ⟨d, hr, pl', hpl', hc'⟩ := ih h
        exact ⟨d, by simp [resolveLoop, hb, hc, hr], pl', by simp [hpl'], hc'⟩

/-- A decided name resolves to an invariant-respecting invocation. -/
theorem resolveEntry_ok (cfg : Config) (m : Meta) (hcfg : cfgOK cfg)
    (hf : (nameDecision cfg m.name cfg.plugins).isSome = true) :
    entryOKb ⟨(resolveLoop cfg m cfg.plugins).1, (resolveLoop cfg m cfg.plugins).2.1⟩ = true := by
  rcases hdec : nameDecision cfg m.name cfg.plugins with _ | b
  · rw [hdec] at hf; cases hf
  · cases b
    · obtain ⟨d, hres, pl, hpl, hctl⟩ := resolveLoop_resolved cfg m cfg.plugins hdec
      rw [hres]
      simpa [entryOKb] using hcfg pl hpl m.name d hctl
    · obtain ⟨pn, hres⟩ := resolveLoop_blacklisted cfg m cfg.plugins hdec
      rw [hres]
      simp [entryOKb]

/-- Under the invariant the resolved form respects the invariant. -/
theorem resolveForm_entryOK (cfg : Config) (f : Form) (stack : List StackEntry)
    (hcfg : cfgOK cfg) (hf : (nameDecision cfg f.name cfg.plugins).isSome = true)
    (hst : stack.all entryOKb = true) (reuse : Option Nat) (meta1 : Meta)
    (dir1 : Option ControlDirective) (w : List REvent)
    (hr : resolveForm cfg f stack = (reuse, meta1, dir1, w)) :
    entryOKb ⟨meta1, dir1⟩ = true := by
  by_cases hform : (!f.begin && f.endM) = true
  · cases hfind : findLastIdx f.name stack with
    | some i =>
      obtain ⟨e, hget, hname⟩ := findLastIdx_get f.name stack i hfind
      have hokE : entryOKb e = true := List.all_eq_true.mp hst e (List.getElem?_mem hget)
      have hget' : stack.get? i = some e := by simpa using hget
      cases hd : e.directive with
      | some d =>
        simp only [resolveForm, hform, if_true, hfind, hget', Option.getD_some, hd,
          Prod.mk.injEq] at hr
        obtain ⟨-, -, h2, -⟩ := hr
        rw [← h2]
        simpa [entryOKb, hd] using hokE
      | none =>
        simp only [resolveForm, hform, if_true, hfind, hget', Option.getD_some, hd,
          Prod.mk.injEq] at hr
        obtain ⟨-, h1, h2, -⟩ := hr
        have hname' : ({ e.metadata with begin := f.begin, endM := f.endM } : Meta).name
            = f.name := hname
        have hok2 := resolveEntry_ok cfg { e.metadata with begin := f.begin, endM := f.endM }
          hcfg (by rw [hname']; exact hf)
        rw [← h1, ← h2]
        exact hok2
    | none =>
      simp only [resolveForm, hform, if_true, hfind, Prod.mk.injEq] at hr
      obtain ⟨-, h1, h2, -⟩ := hr
      have hok2 := resolveEntry_ok cfg ⟨f.name, f.begin, f.endM, false⟩ hcfg hf
      rw [← h1, ← h2]
      exact hok2
  · have hf2 : (!f.begin && f.endM) = false := by
      rwa [Bool.not_eq_true] at hform
    simp only [resolveForm, hf2, Bool.false_eq_true, if_false, Prod.mk.injEq] at hr
    obtain ⟨-, h1, h2, -⟩ := hr
    have hok2 := resolveEntry_ok cfg ⟨f.name, f.begin, f.endM, false⟩ hcfg hf
    rw [← h1, ← h2]
    exact hok2

/-- Under the invariant the dispatch step never faults and preserves the
invariant. -/
theorem processFormDispatch_ok (reuse : Option Nat) (meta1 : Meta)
    (dir1 : Option ControlDirective) (st : RunState)
    (hok : entryOKb ⟨meta1, dir1⟩ = true)
    (hst : st.stack.all entryOKb = true) :
    ∃ st' cont, processFormDispatch reuse meta1 dir1 st = .ok (st', cont) ∧
      st'.stack.all entryOKb = true := by
  have hend : ∀ d, dir1 = some d → (d.endF).isSome = true := by
    intro d hd
    simpa [entryOKb, hd] using hok
  unfold processFormDispatch
  cases hd1 : dir1 with
  | none =>
    rw [hd1] at hok
    refine ⟨_, _, rfl, ?_⟩
    rcases hbl : meta1.blacklist with _ | _ <;> cases reuse <;>
      simp [hbl, hst, all_push_entry _ _ hst hok]
  | some d =>
    rw [hd1] at hok
    obtain ⟨fe, hfe⟩ := Option.isSome_iff_exists.mp (hend d hd1)
    dsimp only
    rw [hfe]
    dsimp only
    by_cases hbe : (!meta1.begin && meta1.endM) = true
    · rw [if_pos hbe]
      refine ⟨_, _, rfl, ?_⟩
      rcases hrv : fe NodeType.comment with _ | _ <;> cases reuse <;>
        simp [hrv, hst, all_eraseIdx _ _ hst]
    · rw [if_neg hbe]
      by_cases hself : d.expectSelf = true
      · rw [if_pos hself]
        by_cases hbm : (d.begin NodeType.comment && meta1.endM) = true
        · rw [if_pos hbm]
          rcases hrv : fe NodeType.comment with _ | _
          · refine ⟨_, _, rfl, ?_⟩
            cases reuse <;> simp [hst, all_push_entry _ _ hst hok]
          · refine ⟨_, _, rfl, ?_⟩
            simpa using hst
        · rw [if_neg hbm]
          refine ⟨_, _, rfl, ?_⟩
          cases reuse <;> simp [hst, all_push_entry _ _ hst hok]
      · rw [if_neg hself]
        refine ⟨_, _, rfl, ?_⟩
        cases reuse <;> simp [hst, all_push_entry _ _ hst hok]

/-- Under the invariant a well-decided form is processed without fault, and
the invariant is preserved. -/
theorem processForm_ok (cfg : Config) (f : Form) (st : RunState)
    (hcfg : cfgOK cfg) (hf : (nameDecision cfg f.name cfg.plugins).isSome = true)
    (hst : st.stack.all entryOKb = true) :
    ∃ st' cont, processForm cfg f st = .ok (st', cont) ∧ st'.stack.all entryOKb = true := by
  rcases hr : resolveForm cfg f st.stack with ⟨reuse, meta1, dir1, w⟩
  have hok : entryOKb ⟨meta1, dir1⟩ = true :=
    resolveForm_entryOK cfg f st.stack hcfg hf hst reuse meta1 dir1 w hr
  have h0 : (resolveForm cfg f st.stack).1 = reuse := by rw [hr]
  have h1 : (resolveForm cfg f st.stack).2.1 = meta1 := by rw [hr]
  have h2 : (resolveForm cfg f st.stack).2.2.1 = dir1 := by rw [hr]
  unfold processForm
  dsimp only
  rw [h0, h1, h2]
  cases reuse with
  | some i =>
    exact processFormDispatch_ok _ meta1 dir1 _ hok
      (by simpa using all_set_entry st.stack i ⟨meta1, dir1⟩ hst hok)
  | none =>
    exact processFormDispatch_ok _ meta1 dir1 _ hok (by simpa using hst)

/-- Under the invariant a comment with well-decided forms parses without
fault, preserving the invariant. -/
theorem parseForms_ok (cfg : Config) (hcfg : cfgOK cfg) :
    ∀ (fs : List Form) (st : RunState),
    (∀ f ∈ fs, (nameDecision cfg f.name cfg.plugins).isSome = true) →
    st.stack.all entryOKb = true →
    ∃ st', parseForms cfg fs st = .ok st' ∧ st'.stack.all entryOKb = true := by
  intro fs
  induction fs with
  | nil => exact fun st _ hst => ⟨st, rfl, hst⟩
  | cons f rest ih =>
    intro st hfs hst
    obtain ⟨st1, cont, hpf, hst1⟩ := processForm_ok cfg f st hcfg (hfs f (by simp)) hst
    cases cont
    · exact ⟨st1, by simp [parseForms, hpf], hst1⟩
    · obtain ⟨st2, hp2, hst2⟩ := ih st1 (fun g hg => hfs g (by simp [hg])) hst1
      exact ⟨st2, by simp [parseForms, hpf, hp2], hst2⟩

/-- Under the invariant every visit is handled without fault, preserving the
invariant. -/
theorem visit_ok (cfg : Config) (hcfg : cfgOK cfg) (v : Visit) (st : RunState)
    (hv : ∀ f ∈ formsOfVisit v, (nameDecision cfg f.name cfg.plugins).isSome = true)
    (hst : st.stack.all entryOKb = true) :
    ∃ st', (match v with
            | .rule id sel => ruleVisit st id sel
            | .atrule id ps => atRuleVisit cfg st id ps
            | .decl n pid pr last => declarationVisit cfg st n pid pr last
            | .comment fs => commentVisit cfg st fs) = .ok st' ∧
      st'.stack.all entryOKb = true := by
  cases v with
  | rule id sel =>
    obtain ⟨elig, n', s', ev, hsp, hall⟩ := shouldProcess_ok st.stack ⟨NodeType.rule, false⟩ hst
    unfold ruleVisit
    dsimp only
    rw [hsp]
    cases elig <;> exact ⟨_, rfl, hall⟩
  | atrule id ps =>
    obtain ⟨elig, n', s', ev, hsp, hall⟩ :=
      shouldProcess_ok st.stack ⟨NodeType.atrule, false⟩ hst
    unfold atRuleVisit
    dsimp only
    rw [hsp]
    by_cases hc : (elig && (cfg.processUrlsAll || cfg.processUrlsAtrule)) = true <;>
      simp only [hc, Bool.false_eq_true, if_true, if_false] <;> exact ⟨_, rfl, hall⟩
  | comment fs =>
    obtain ⟨elig, n', s', ev, hsp, hall⟩ :=
      shouldProcess_ok st.stack ⟨NodeType.comment, false⟩ hst
    unfold commentVisit
    rw [hsp]
    cases elig
    · exact ⟨_, rfl, hall⟩
    · simp only [if_true]
      exact parseForms_ok cfg hcfg fs _ hv (by simpa using hall)
  | decl n pid pr last =>
    obtain ⟨elig, n', s', ev, hsp, hall⟩ := shouldProcess_ok st.stack ⟨NodeType.decl, false⟩ hst
    dsimp only
    unfold declarationVisit
    rw [hsp]
    dsimp only
    cases elig
    · exact ⟨_, rfl, hall⟩
    · rcases hdp : declPlugins cfg cfg.plugins n with ⟨n2, ev2, inc, term⟩
      dsimp only
      cases term
    
      · by_cases hg : (!(cfg.autoRename && (st.flipped + inc == 0) && pr && last)) = true
        · rw [if_neg (by simp)]
          rw [if_pos hg]
          exact ⟨_, rfl, hall⟩
        · rw [if_neg (by simp)]
          rw [if_neg hg]
          by_cases hs : cfg.autoRenameStrict = true
          · rw [if_pos hs]
            cases hlk : lookupRename st.toBeRenamed
              (applyStringMap (getAssoc st.rules pid)) <;>
              exact ⟨_, rfl, hall⟩
          · rw [if_neg hs]
            exact ⟨_, rfl, hall⟩
      · exact ⟨_, rfl, hall⟩

/-- Under the invariant the traversal completes without fault. -/
theorem runVisits_ok (cfg : Config) (hcfg : cfgOK cfg) :
    ∀ (doc : List Visit) (st : RunState), docOK cfg doc →
    st.stack.all entryOKb = true →
    ∃ st', runVisits cfg doc st = .ok st' := by
  intro doc
  induction doc with
  | nil => exact fun st _ _ => ⟨st, rfl⟩
  | cons v rest ih =>
    intro st hdoc hst
    obtain ⟨st1, hv, hst1⟩ := visit_ok cfg hcfg v st
      (fun f hf => hdoc v (by simp) f hf) hst
    obtain ⟨st2, h2⟩ := ih st1 (fun u hu f hf => hdoc u (by simp [hu]) f hf) hst1
    exact ⟨st2, by simp only [runVisits, hv, h2]⟩

/-- Claim C9 (amended): for every input stylesheet tree and every plugin
configuration in which each control directive declares its end handler and
each directive name used in the document is decided by some plugin, a run
completes without raising a fault.  (A comment form carrying an end marker
that reaches a directive whose optional end handler is absent makes the run
raise a type fault; see the counterexample.) -/
theorem C9_safe_run (cfg : Config) (doc : List Visit)
    (hcfg : cfgOK cfg) (hdoc : docOK cfg doc) :
    ∃ st, runDoc cfg doc = .ok st := by
  have hrd : runDoc cfg doc =
      (match runVisits cfg doc ⟨[], 0, [], [], [], [REvent.preHook]⟩ with
       | .error e => Except.error e
       | .ok st => Except.ok (onceExit st)) := rfl
  obtain ⟨st', hrv⟩ := runVisits_ok cfg hcfg doc ⟨[], 0, [], [], [], [REvent.preHook]⟩
    hdoc (by simp)
  exact ⟨onceExit st', by rw [hrd, hrv]⟩

/-- Directive with no end handler for the C9 counterexample. -/
def dirBad : ControlDirective := ⟨fun _ => false, false, fun _ => false, none⟩

/-- Configuration whose only plugin defines `z` without an end handler. -/
def cfgBad : Config :=
  ⟨[⟨"B", ⟨fun n => if n = "z" then some dirBad else none, []⟩, []⟩],
   fun _ _ => false, fun _ => none, false, false, false, false, false, false⟩

/-- A document whose single comment carries an end-marked occurrence of `z`. -/
def docBad : List Visit := [.comment [⟨"z", false, true⟩]]

/-- Claim C9 counterexample: a control directive whose optional end handler
is absent, combined with a comment form carrying an end marker, makes the
run raise a type fault instead of completing with warnings. -/
theorem C9_counterexample :
    runDoc cfgBad docBad = .error "TypeError: end is not a function" := rfl

/-- Witness for C9 (amended): a well-formed configuration and document run
to completion. -/
theorem C9_witness :
    cfgOK cfg7 ∧ docOK cfg7 docC5 ∧ ∃ st, runDoc cfg7 docC5 = .ok st := by
  have hcfg : cfgOK cfg7 := by
    intro pl hpl n d hctl
    simp only [cfg7, List.mem_singleton] at hpl
    subst hpl
    simp only at hctl
    cases hctl
    rfl
  have hdoc : docOK cfg7 docC5 := by
    intro v hv f hf
    simp only [docC5, List.mem_singleton] at hv
    subst hv
    simp only [formsOfVisit, List.mem_singleton] at hf
    subst hf
    decide
  exact ⟨hcfg, hdoc, C9_safe_run cfg7 docC5 hcfg hdoc⟩

end Rtlcss
